import Mathlib

/-!
Verification of the subsgrade CLI (src/index.js): a shallow embedding of its
two subcommand flows (dependency scan and commit audit) together with proofs
about the behaviours its specification describes.

JavaScript string primitives used by the program (split, trim, startsWith,
join) are re-implemented structurally over lists of characters so that every
definition evaluates by kernel reduction.
-/

namespace Subsgrade

/-- Models JavaScript s.split(sep) for a single-character separator:
accumulates the current field and emits it at each separator, emitting the
(possibly empty) trailing field at the end of input. -/
def splitOnCharAux (sep : Char) : List Char → List Char → List String
  | [], acc => [String.mk acc.reverse]
  | c :: rest, acc =>
    if c = sep then String.mk acc.reverse :: splitOnCharAux sep rest []
    else splitOnCharAux sep rest (c :: acc)

/-- JavaScript s.split(sep) for a one-character separator. -/
def splitOnChar (sep : Char) (s : String) : List String :=
  splitOnCharAux sep s.data []

/-- JavaScript array.join(sep). -/
def joinWith (sep : String) : List String → String
  | [] => ""
  | [x] => x
  | x :: y :: rest => x ++ sep ++ joinWith sep (y :: rest)

/-- Whitespace characters removed by JavaScript String.prototype.trim
(restricted to the ASCII whitespace actually occurring in this program's
inputs). -/
def isJsSpace (c : Char) : Bool :=
  c = ' ' || c = '\t' || c = '\n' || c = '\r'

/-- JavaScript s.trim(). -/
def trimChars (s : String) : String :=
  String.mk (((s.data.dropWhile isJsSpace).reverse.dropWhile isJsSpace).reverse)

/-- JavaScript s.startsWith(p). -/
def strStartsWith (s p : String) : Bool :=
  p.data.isPrefixOf s.data

/-! ## Lockfile scanner (src/index.js lines 199–228)

cmdDependencies with the lock flag reads Cargo.lock, splits it into lines and
scans them with a single mutable buffer holding the current package's name and
source. -/

/-- The scan buffer of the lockfile loop; both fields start out null. -/
structure CargoLockPackage where
  name : Option String
  source : Option String
deriving DecidableEq

/-- The lockfile index maps a source (null for packages without a source line)
to the names pushed under it, in insertion order; modelled as an association
list because JavaScript object keys keep insertion order. -/
abbrev LockIndex := List (Option String × List String)

/-- Models the two JavaScript lines creating the bucket when absent and pushing
the package name onto it. -/
def lockIndexAdd (idx : LockIndex) (src : Option String) (nm : String) :
    LockIndex :=
  if idx.any (fun p => p.1 = src) then
    idx.map (fun p => if p.1 = src then (p.1, p.2 ++ [nm]) else p)
  else idx ++ [(src, [nm])]

/-- One attempt of the regex key = "([^\x22]+)" at the current position: the
literal prefix, then a nonempty run of non-quote characters, then a closing
quote. Greedy matching is exact here because shortening the run can never
reach the required closing quote. -/
def tryMatchQuotedAt (pat : List Char) (s : List Char) : Option String :=
  if s.take pat.length = pat then
    let rest := s.drop pat.length
    let v := rest.takeWhile (fun c => c ≠ '"')
    if v ≠ [] ∧ (rest.drop v.length).head? = some '"' then some (String.mk v)
    else none
  else none

/-- Leftmost search of the pattern over the line, as the JavaScript regex
engine does. -/
def searchQuoted (pat : List Char) : List Char → Option String
  | [] => none
  | c :: rest =>
    match tryMatchQuotedAt pat (c :: rest) with
    | some v => some v
    | none => searchQuoted pat rest

/-- Models line.match of the regex key = "([^\x22]+)" returning capture 1, or
none when the regex does not match (in which case the JavaScript code throws
a TypeError indexing null). -/
def findQuotedValue (line key : String) : Option String :=
  searchQuoted (key ++ " = \"").data line.data

/-- One iteration of the lockfile scan loop (src/index.js lines 205–221):
trim the line; on a block marker with a populated name, push the buffer into
the index (the buffer is not reset); on a name or source line, overwrite the
corresponding buffer field. A failed regex match models the TypeError the
JavaScript code would throw. -/
def lockScanStep (pkg : CargoLockPackage) (idx : LockIndex) (rawLine : String) :
    Except String (CargoLockPackage × LockIndex) :=
  let line := trimChars rawLine
  let idx :=
    if line = "[[package]]" ∧ pkg.name ≠ none then
      lockIndexAdd idx pkg.source (pkg.name.getD "")
    else idx
  if strStartsWith line "name = \"" then
    match findQuotedValue line "name" with
    | some v => .ok ({ pkg with name := some v }, idx)
    | none => .error ("TypeError: cannot read match of line " ++ line)
  else if strStartsWith line "source = \"" then
    match findQuotedValue line "source" with
    | some v => .ok ({ pkg with source := some v }, idx)
    | none => .error ("TypeError: cannot read match of line " ++ line)
  else .ok (pkg, idx)

/-- The scan loop over the remaining lines. The final buffer is NOT pushed
after the loop: the source has no flush after its for loop. -/
def lockScanLines : List String → CargoLockPackage → LockIndex →
    Except String LockIndex
  | [], _, idx => .ok idx
  | l :: rest, pkg, idx =>
    match lockScanStep pkg idx l with
    | .ok (pkg, idx) => lockScanLines rest pkg idx
    | .error e => .error e

/-- Models the whole Cargo.lock scan of cmdDependencies: split the text on
newlines and run the loop from a null buffer and an empty index. -/
def scanCargoLock (text : String) : Except String LockIndex :=
  lockScanLines (splitOnChar '\n' text) { name := none, source := none } []

/-- A lockfile with a single package block, used to exhibit the dropped final
block. -/
def lockTextOneBlock : String :=
  "[[package]]\nname = \"a\"\nsource = \"s\""

/-- A lockfile whose second block has no source line and whose third block
makes the scanner commit the second one. -/
def lockTextCarryOver : String :=
  "[[package]]\nname = \"a\"\nsource = \"s1\"\n[[package]]\nname = \"b\"\n[[package]]\nname = \"c\"\nsource = \"s3\""

/-! ## Commit auditor (src/index.js lines 75–135)

cmdCommits shells out to git; those subprocess results (and the parsed git
config URL) enter the model through an oracle structure, each field an Except
because any command can fail. -/

/-- A commit of the log output: short hash and subject. -/
structure CommitRecord where
  sha : String
  subject : String
deriving DecidableEq

/-- Models lines 99–101: split the log line on spaces, shift off the sha and
re-join the remainder as the subject. -/
def parseCommitLine (line : String) : CommitRecord :=
  match splitOnChar ' ' line with
  | [] => { sha := "", subject := "" }
  | sha :: rest => { sha := sha, subject := joinWith " " rest }

/-- Models the extra-commit loop (lines 97–106): walk the log lines newest
first and stop (exclusively) at the line whose sha equals the upstream tip;
when the tip never occurs, every line is collected. -/
def extraCommits : List String → String → List CommitRecord
  | [], _ => []
  | l :: rest, lastUpstreamCommit =>
    let c := parseCommitLine l
    if c.sha = lastUpstreamCommit then []
    else c :: extraCommits rest lastUpstreamCommit

/-- Models the need-commit loop (lines 108–118): for each extra commit run the
containment query; the commit is needed when the trimmed stdout is empty. -/
def collectNeedCommits (branchContainsOut : String → Except String String) :
    List CommitRecord → Except String (List CommitRecord)
  | [] => .ok []
  | c :: rest =>
    match branchContainsOut c.sha with
    | .error e => .error e
    | .ok out =>
      match collectNeedCommits branchContainsOut rest with
      | .error e => .error e
      | .ok need =>
        if (trimChars out).length > 0 then .ok need else .ok (c :: need)

/-- The external results cmdCommits consumes: the https URL derived from the
git config (parse plus regex match collapsed into one fallible step) and the
stdout of each git invocation. -/
structure VcsOracle where
  originGitUrl : Except String String
  currentBranchOut : Except String String
  upstreamTipOut : Except String String
  trackedLogOut : Except String String
  branchContainsOut : String → Except String String

/-- The body of cmdCommits inside its try block (lines 77–130), returning the
derived URL, the current branch and the need list. Any failing step aborts
the whole flow. -/
def cmdCommitsRun (o : VcsOracle) :
    Except String (String × String × List CommitRecord) := do
  let gitUrl ← o.originGitUrl
  let currentBranch := trimChars (← o.currentBranchOut)
  let lastUpstreamCommit := trimChars (← o.upstreamTipOut)
  let logOut ← o.trackedLogOut
  let extras := extraCommits (splitOnChar '\n' (trimChars logOut))
    lastUpstreamCommit
  let need ← collectNeedCommits o.branchContainsOut extras
  return (gitUrl, currentBranch, need)

/-- Models cmdCommits with its catch block (lines 131–134): any error is
wrapped with the originating path and rethrown. -/
def cmdCommits (path : String) (o : VcsOracle) :
    Except String (String × String × List CommitRecord) :=
  match cmdCommitsRun o with
  | .ok v => .ok v
  | .error err =>
    .error ("failed evaluating commits for " ++ path ++ ": " ++ err)

/-- One line of the need report (lines 122–127); the chalk colour wrappers
only add terminal escapes and are modelled as the identity. -/
def commitLinkLine (gitUrl : String) (c : CommitRecord) : String :=
  c.sha ++ " " ++ gitUrl ++ "/commit/" ++ c.sha ++ " " ++ c.subject ++ " "

/-- JavaScript ToBoolean of an array value: an object is always truthy,
whatever its length. This is the guard of line 119. -/
def jsArrayTruthy (_needCommits : List CommitRecord) : Bool := true

/-- Models lines 119–130: the need report is printed (some message) when the
guard holds; the guard tests the array value itself, not its emptiness. -/
def needCommitsReport (currentBranch gitUrl : String)
    (needCommits : List CommitRecord) : Option String :=
  if jsArrayTruthy needCommits then
    some ("Need the following commits on branch " ++ currentBranch ++ ":\n"
      ++ joinWith "\n" (needCommits.map (commitLinkLine gitUrl)))
  else none

/-- Outcome of the node process after a subcommand's promise settles. -/
structure ProcessOutcome where
  exitCode : Nat
  loggedError : Bool
deriving DecidableEq

/-- Models the handler attached at lines 43–45 and 64–70: the promise
rejection is consumed by console.error, so the rejection counts as handled
and the node process exits with code 0 either way. -/
def topLevelHandler {α : Type} (r : Except String α) : ProcessOutcome :=
  match r with
  | .ok _ => { exitCode := 0, loggedError := false }
  | .error _ => { exitCode := 0, loggedError := true }

/-! ## Directory walker (src/index.js lines 250–275)

deepReadDir recurses over directory entries with an ignore predicate and a
match predicate; a directory entry is modelled as its name together with its
children when it is a directory. -/

/-- A directory entry as seen through readdir with file types. -/
inductive Dirent where
  | file (name : String)
  | dir (name : String) (children : List Dirent)

/-- The dirent.name property. -/
def Dirent.name : Dirent → String
  | .file n => n
  | .dir n _ => n

/-- The dirent.isDirectory() query. -/
def Dirent.isDirectory : Dirent → Bool
  | .file _ => false
  | .dir _ _ => true

/-- Models path.join for the simple relative names this program joins. -/
def joinPath (dir nm : String) : String := dir ++ "/" ++ nm

mutual

/-- The body mapped over each dirent (lines 255–270): an ignored entry
contributes nothing; a directory is recursed into with the joined path; a
remaining entry contributes its path when the matcher accepts it. -/
def deepReadDirEnt (dirPath : String)
    (ignoreFn matcherFn : String → Dirent → Bool) (d : Dirent) :
    List String :=
  let path := joinPath dirPath (Dirent.name d)
  if ignoreFn dirPath d then []
  else
    match d with
    | .dir _ children => deepReadDir path ignoreFn matcherFn children
    | .file _ => if matcherFn dirPath d then [path] else []

/-- deepReadDir over the listed entries of dirPath: the per-entry results
flattened in listing order (lines 250–275). -/
def deepReadDir (dirPath : String)
    (ignoreFn matcherFn : String → Dirent → Bool) (entries : List Dirent) :
    List String :=
  match entries with
  | [] => []
  | d :: rest =>
    deepReadDirEnt dirPath ignoreFn matcherFn d
      ++ deepReadDir dirPath ignoreFn matcherFn rest

end

/-! ## Manifest scanner (src/index.js lines 163–189)

Each manifest dependency entry is modelled by its name and its optional git
and branch string values; absent fields and empty strings are both falsy in
the JavaScript guards. -/

/-- One entry of a manifest's dependencies table. -/
structure ManifestDep where
  name : String
  git : Option String
  branch : Option String
deriving DecidableEq

/-- The dependency index, keyed by git URL and branch, insertion ordered. -/
abbrev DependencyIndex := List (String × List String)

/-- Models lines 180–183: create the bucket for the key when absent and push
the dependency name. -/
def indexAdd (idx : DependencyIndex) (key nm : String) : DependencyIndex :=
  if idx.any (fun p => p.1 = key) then
    idx.map (fun p => if p.1 = key then (p.1, p.2 ++ [nm]) else p)
  else idx ++ [(key, [nm])]

/-- Models lines 176–178: the branch value when truthy, else the literal
master. -/
def depBranch (d : ManifestDep) : String :=
  match d.branch with
  | some b => if b = "" then "master" else b
  | none => "master"

/-- Models lines 174–184 for one entry: nothing happens unless the git field
is truthy; otherwise the name is pushed under the key built from the git URL
and the branch. -/
def processManifestDep (idx : DependencyIndex) (d : ManifestDep) :
    DependencyIndex :=
  match d.git with
  | none => idx
  | some g =>
    if g = "" then idx
    else indexAdd idx (g ++ "#" ++ depBranch d) d.name

/-- The dependency index accumulated over all scanned entries in order. -/
def buildDependencyIndex (deps : List ManifestDep) : DependencyIndex :=
  deps.foldl processManifestDep []

/-- Models the manifest file loop (lines 163–189): each file's parsed entries
are folded into the index; a file that fails to read or parse aborts the scan
with the decoding error naming the file. -/
def scanManifestFiles
    (readManifestDeps : String → Except String (List ManifestDep)) :
    List String → DependencyIndex → Except String DependencyIndex
  | [], idx => .ok idx
  | f :: rest, idx =>
    match readManifestDeps f with
    | .error err => .error ("failed decoding file " ++ f ++ ": " ++ err)
    | .ok ds => scanManifestFiles readManifestDeps rest
        (ds.foldl processManifestDep idx)

/-! ## Upstream verifier (src/index.js lines 230–246) -/

/-- A locked source that matched the git source regex: owner, repo, branch
and the pinned sha captured from the source string. -/
structure GitSourceSpec where
  owner : String
  repo : String
  branch : String
  pinnedSha : String
deriving DecidableEq

/-- The data of one printed sha mismatch message (lines 241–243). -/
structure MismatchReport where
  owner : String
  repo : String
  branch : String
  expectedSha : String
  actualSha : String
deriving DecidableEq

/-- Models lines 239–244: compare the sha returned by the hosting API with
the pinned sha by strict string inequality; exactly one report on mismatch,
none on equality. -/
def verifyLockedSource (spec : GitSourceSpec) (apiSha : String) :
    Option MismatchReport :=
  if apiSha = spec.pinnedSha then none
  else
    some { owner := spec.owner, repo := spec.repo, branch := spec.branch,
           expectedSha := spec.pinnedSha, actualSha := apiSha }

/-- Models the verification loop (lines 231–246) over the lock index keys:
keys the regex does not match are skipped; for matching keys the API is
queried (fallibly) and a mismatch is collected. -/
def verifySources (latestShaFor : GitSourceSpec → Except String String)
    (parseSource : Option String → Option GitSourceSpec) :
    List (Option String) → Except String (List MismatchReport)
  | [] => .ok []
  | src :: rest =>
    match parseSource src with
    | none => verifySources latestShaFor parseSource rest
    | some spec => do
      let apiSha ← latestShaFor spec
      let more ← verifySources latestShaFor parseSource rest
      match verifyLockedSource spec apiSha with
      | some r => return r :: more
      | none => return more

/-! ## The deps subcommand flow (src/index.js lines 137–248) -/

/-- The external results cmdDependencies consumes: the parsed git config URL,
the walked file list, the parsed dependency entries of each manifest, the
lockfile text, the hosting API's latest sha per source spec, and the regex
match of a lock index key. -/
structure DepsOracle where
  originGitUrl : Except String String
  walkFiles : Except String (List String)
  readManifestDeps : String → Except String (List ManifestDep)
  readLockfile : Except String String
  latestShaFor : GitSourceSpec → Except String String
  parseSource : Option String → Option GitSourceSpec

/-- Models cmdDependencies: read the git config, walk for manifests, fold
them into the dependency index, and with the lock flag scan Cargo.lock and
verify its sources; any failing step aborts the whole flow, and the function
has no catch of its own. -/
def cmdDependencies (o : DepsOracle) (withLock : Bool) :
    Except String (DependencyIndex ×
      Option (LockIndex × List MismatchReport)) := do
  let _ ← o.originGitUrl
  let files ← o.walkFiles
  let deps ← scanManifestFiles o.readManifestDeps files []
  if withLock then
    let lockText ← o.readLockfile
    let lockIdx ← scanCargoLock lockText
    let reports ← verifySources o.latestShaFor o.parseSource
      (lockIdx.map (fun p => p.1))
    return (deps, some (lockIdx, reports))
  else
    return (deps, none)

/-! ## Concrete fixtures used by witnesses and counterexamples -/

/-- A commits oracle whose git config read fails; every later step would
succeed. -/
def commitsOracleBadConfig : VcsOracle :=
  { originGitUrl := .error "ConfigParseError: no remote origin url",
    currentBranchOut := .ok "",
    upstreamTipOut := .ok "",
    trackedLogOut := .ok "",
    branchContainsOut := fun _ => .ok "" }

/-- A deps oracle whose git config read fails; every later step would
succeed. -/
def depsOracleBadConfig : DepsOracle :=
  { originGitUrl := .error "ENOENT: missing .git/config",
    walkFiles := .ok [],
    readManifestDeps := fun _ => .ok [],
    readLockfile := .ok "",
    latestShaFor := fun _ => .ok "",
    parseSource := fun _ => none }

/-- Containment oracle for the commit-audit example: the local branch
contains c2 (nonempty stdout) but not c3. -/
def needContainsOutEx : String → String :=
  fun sha => if sha = "c2" then "  release-branch" else ""

/-- Ignore predicate example: skip every entry named skip. -/
def ignSkipEx : String → Dirent → Bool :=
  fun _ d => Dirent.name d == "skip"

/-- Matcher example accepting every file. -/
def matchAllEx : String → Dirent → Bool :=
  fun _ _ => true

/-! ## Helper lemmas -/

/-- String concatenation is associative, as concatenation of the underlying
character lists. -/
theorem string_append_assoc (a b c : String) : a ++ b ++ c = a ++ (b ++ c) := by
  cases a; cases b; cases c
  exact congrArg String.mk (List.append_assoc _ _ _)

/-- A name found in some bucket after indexAdd was either already in a bucket
of the index or is the name just pushed. -/
theorem indexAdd_mem_names {idx : DependencyIndex} {key nm k n : String}
    {ns : List String} (hmem : (k, ns) ∈ indexAdd idx key nm) (hn : n ∈ ns) :
    (∃ ns₀, (k, ns₀) ∈ idx ∧ n ∈ ns₀) ∨ n = nm := by
  unfold indexAdd at hmem
  by_cases hany : idx.any (fun p => p.1 = key) = true
  · rw [if_pos hany] at hmem
    obtain ⟨⟨pk, pns⟩, hp, hpe⟩ := List.mem_map.mp hmem
    dsimp only at hpe
    by_cases hpk : pk = key
    · rw [if_pos hpk] at hpe
      injection hpe with h1 h2
      subst h1
      subst h2
      rcases List.mem_append.mp hn with hin | hin
      · exact .inl ⟨pns, hp, hin⟩
      · exact .inr (List.mem_singleton.mp hin)
    · rw [if_neg hpk] at hpe
      exact .inl ⟨ns, hpe ▸ hp, hn⟩
  · rw [if_neg hany] at hmem
    rcases List.mem_append.mp hmem with hin | hin
    · exact .inl ⟨ns, hin, hn⟩
    · have hpair := List.mem_singleton.mp hin
      injection hpair with h1 h2
      subst h2
      exact .inr (List.mem_singleton.mp hn)

/-- Folding entries into an index only adds names of entries whose git field
is truthy: any name of the result was in the starting index or comes from a
git-bearing entry of the list. -/
theorem foldl_processManifestDep_mem (deps : List ManifestDep)
    (idx : DependencyIndex) (k : String) (ns : List String) (n : String)
    (hmem : (k, ns) ∈ deps.foldl processManifestDep idx) (hn : n ∈ ns) :
    (∃ ns₀, (k, ns₀) ∈ idx ∧ n ∈ ns₀) ∨
      ∃ d, d ∈ deps ∧ d.name = n ∧ ∃ g, d.git = some g ∧ g ≠ "" := by
  induction deps generalizing idx with
  | nil => exact .inl ⟨ns, hmem, hn⟩
  | cons d rest ih =>
    rcases ih (processManifestDep idx d) hmem with h | h
    · obtain ⟨ns₀, hmem₀, hn₀⟩ := h
      cases hgit : d.git with
      | none =>
        have hid : processManifestDep idx d = idx := by
          simp [processManifestDep, hgit]
        exact .inl ⟨ns₀, by rwa [hid] at hmem₀, hn₀⟩
      | some g =>
        by_cases hge : g = ""
        · have hid : processManifestDep idx d = idx := by
            simp [processManifestDep, hgit, hge]
          exact .inl ⟨ns₀, by rwa [hid] at hmem₀, hn₀⟩
        · have hpd : processManifestDep idx d =
              indexAdd idx (g ++ "#" ++ depBranch d) d.name := by
            simp [processManifestDep, hgit, hge]
          rw [hpd] at hmem₀
          rcases indexAdd_mem_names hmem₀ hn₀ with ⟨ns₁, hm₁, hn₁⟩ | heq
          · exact .inl ⟨ns₁, hm₁, hn₁⟩
          · exact .inr ⟨d, List.mem_cons_self _ _, heq.symm, g, hgit, hge⟩
    · obtain ⟨d', hd', hrest⟩ := h
      exact .inr ⟨d', List.mem_cons_of_mem _ hd', hrest⟩

/-! ## Claim theorems -/

/-- Claim C1: the claim states that scanning a lockfile with N package blocks
indexes all N package names including the final block. The code has no flush
after its loop, so a lockfile with a single block yields an empty index: the
final package is dropped, contradicting the claim. -/
theorem scanCargoLock_drops_final_block :
    scanCargoLock lockTextOneBlock = .ok [] := rfl

/-- Claim C3 counterexample: the claim states the buffer is reset after a
commit so that a block with no source line lands in the null bucket. On a
lockfile whose second block has no source line, the scanner indexes that
package under the previous block's source s1 and creates no null bucket. -/
theorem missing_source_inherits_previous_source :
    scanCargoLock lockTextCarryOver = .ok [(some "s1", ["a", "b"])] := rfl

/-- Claim C3 (amended): on a block-start marker with a populated name, the
buffer is committed into the index but NOT reset: the step returns the very
same buffer, so a following block without a source line inherits the previous
source. -/
theorem marker_commits_without_reset (pkg : CargoLockPackage)
    (idx : LockIndex) (h : pkg.name ≠ none) :
    lockScanStep pkg idx "[[package]]" =
      .ok (pkg, lockIndexAdd idx pkg.source (pkg.name.getD "")) := by
  obtain ⟨nm, src⟩ := pkg
  cases nm with
  | none => exact absurd rfl h
  | some n => rfl

/-- Witness for the amended claim C3 at a concrete buffer and index. -/
theorem marker_commits_without_reset_witness :
    lockScanStep ⟨some "a", some "s"⟩ [] "[[package]]" =
      .ok (⟨some "a", some "s"⟩, [(some "s", ["a"])]) :=
  marker_commits_without_reset ⟨some "a", some "s"⟩ [] (by decide)

/-- Claim C5: for a locked git source with pinned sha, an equal API sha
produces no mismatch report, and a different API sha produces exactly one
report whose expectedSha is the pinned sha and whose actualSha is the API
sha. -/
theorem verifyLockedSource_mismatch_spec :
    ∀ (spec : GitSourceSpec) (apiSha : String),
      (apiSha = spec.pinnedSha → verifyLockedSource spec apiSha = none) ∧
      (apiSha ≠ spec.pinnedSha →
        verifyLockedSource spec apiSha =
          some { owner := spec.owner, repo := spec.repo, branch := spec.branch,
                 expectedSha := spec.pinnedSha, actualSha := apiSha }) := by
  intro spec apiSha
  constructor
  · intro h
    simp [verifyLockedSource, h]
  · intro h
    simp [verifyLockedSource, h]

/-- Witness for claim C5 at the spec's concrete shas abc123 and def456. -/
theorem verifyLockedSource_mismatch_spec_witness :
    verifyLockedSource ⟨"o", "r", "b", "abc123"⟩ "abc123" = none ∧
    verifyLockedSource ⟨"o", "r", "b", "abc123"⟩ "def456" =
      some ⟨"o", "r", "b", "abc123", "def456"⟩ :=
  ⟨(verifyLockedSource_mismatch_spec ⟨"o", "r", "b", "abc123"⟩ "abc123").1 rfl,
   (verifyLockedSource_mismatch_spec ⟨"o", "r", "b", "abc123"⟩ "def456").2
     (by decide)⟩

/-- Claim C7: a git dependency declaration that omits the branch field is
indexed under the key built with branch master, that is, gitUrl#master. -/
theorem omitted_branch_defaults_master :
    ∀ (idx : DependencyIndex) (d : ManifestDep) (g : String),
      d.git = some g → g ≠ "" → d.branch = none →
      processManifestDep idx d = indexAdd idx (g ++ "#master") d.name := by
  intro idx d g hg hne hb
  obtain ⟨nm, dg, db⟩ := d
  simp only [ManifestDep.git] at hg
  simp only [ManifestDep.branch] at hb
  subst hg
  subst hb
  simp only [processManifestDep, depBranch]
  rw [if_neg hne, string_append_assoc]
  rfl

/-- Witness for claim C7 at a concrete declaration without a branch field. -/
theorem omitted_branch_defaults_master_witness :
    processManifestDep [] ⟨"foo", some "https://example.com/foo", none⟩ =
      indexAdd [] ("https://example.com/foo" ++ "#master") "foo" :=
  omitted_branch_defaults_master [] ⟨"foo", some "https://example.com/foo", none⟩
    "https://example.com/foo" rfl (by decide) rfl

/-- Claim C10: the need-commit report guard tests the truthiness of the array
value, which is always truthy, so the report is printed for every need list;
on an empty list the printed message is exactly the header line with nothing
after it. -/
theorem need_report_printed_unconditionally :
    ∀ (currentBranch gitUrl : String) (need : List CommitRecord),
      (needCommitsReport currentBranch gitUrl need).isSome = true ∧
      needCommitsReport currentBranch gitUrl [] =
        some ("Need the following commits on branch " ++ currentBranch
          ++ ":\n") := by
  intro b u need
  refine ⟨rfl, ?_⟩
  show some (("Need the following commits on branch " ++ b ++ ":\n") ++ "")
    = some ("Need the following commits on branch " ++ b ++ ":\n")
  congr 1
  cases h : ("Need the following commits on branch " ++ b ++ ":\n") with
  | mk l => exact congrArg String.mk (List.append_nil l)

/-- Claim C2 counterexample: the claim states that an erroring run exits with
a non-zero exit code. With a failing git config read, the commits flow does
abort with an error, yet the top-level catch handler consumes the rejection
and the process exit code is 0. -/
theorem catch_handler_exits_zero_counterexample :
    cmdCommits "." commitsOracleBadConfig =
      .error ("failed evaluating commits for .: ConfigParseError: no remote origin url") ∧
    (topLevelHandler (cmdCommits "." commitsOracleBadConfig)).exitCode = 0 :=
  ⟨rfl, rfl⟩

/-- Claim C2 (amended): every error aborts the subcommand flow entirely — the
flow yields an error carrying context and no partial result — and the error
is logged by the top-level handler, but the handler catches the rejection so
the process exits with code 0, not non-zero. -/
theorem errors_abort_flow_and_exit_zero :
    (∀ (path : String) (o : VcsOracle) (e : String),
      cmdCommitsRun o = .error e →
      cmdCommits path o =
        .error ("failed evaluating commits for " ++ path ++ ": " ++ e) ∧
      topLevelHandler (cmdCommits path o) =
        { exitCode := 0, loggedError := true }) ∧
    (∀ (o : DepsOracle) (withLock : Bool) (e : String),
      cmdDependencies o withLock = .error e →
      topLevelHandler (cmdDependencies o withLock) =
        { exitCode := 0, loggedError := true }) := by
  constructor
  · intro path o e h
    have hw : cmdCommits path o =
        .error ("failed evaluating commits for " ++ path ++ ": " ++ e) := by
      unfold cmdCommits
      rw [h]
    exact ⟨hw, by rw [hw]; rfl⟩
  · intro o withLock e h
    rw [h]
    rfl

/-- Witness for the amended claim C2: both subcommand flows with a failing
config read end in a logged error and exit code 0. -/
theorem errors_abort_flow_and_exit_zero_witness :
    (cmdCommits "." commitsOracleBadConfig =
        .error ("failed evaluating commits for " ++ "." ++ ": "
          ++ "ConfigParseError: no remote origin url") ∧
      topLevelHandler (cmdCommits "." commitsOracleBadConfig) =
        { exitCode := 0, loggedError := true }) ∧
    topLevelHandler (cmdDependencies depsOracleBadConfig true) =
      { exitCode := 0, loggedError := true } :=
  ⟨errors_abort_flow_and_exit_zero.1 "." commitsOracleBadConfig
      "ConfigParseError: no remote origin url" rfl,
   errors_abort_flow_and_exit_zero.2 depsOracleBadConfig true
      "ENOENT: missing .git/config" rfl⟩

/-- Claim C4: with the tracked-branch log lines for c3, c2, c1 newest first
and the upstream tip equal to c1's sha, the extra set is exactly c3 then c2;
and when the containment query reports c2 contained and c3 not contained, the
need list is exactly c3. -/
theorem commit_audit_example_need_list
    (l3 l2 l1 : String) (f : String → String)
    (h31 : (parseCommitLine l3).sha ≠ (parseCommitLine l1).sha)
    (h21 : (parseCommitLine l2).sha ≠ (parseCommitLine l1).sha)
    (hc2 : (trimChars (f (parseCommitLine l2).sha)).length > 0)
    (hc3 : ¬ (trimChars (f (parseCommitLine l3).sha)).length > 0) :
    extraCommits [l3, l2, l1] (parseCommitLine l1).sha =
      [parseCommitLine l3, parseCommitLine l2] ∧
    collectNeedCommits (fun sha => .ok (f sha))
        [parseCommitLine l3, parseCommitLine l2] =
      .ok [parseCommitLine l3] := by
  constructor
  · simp only [extraCommits]
    rw [if_neg h31, if_neg h21]
    simp
  · simp only [collectNeedCommits]
    rw [if_pos hc2]
    show (if (trimChars (f (parseCommitLine l3).sha)).length > 0
        then Except.ok [] else Except.ok [parseCommitLine l3]) =
      Except.ok [parseCommitLine l3]
    rw [if_neg hc3]

/-- Witness for claim C4 at the spec's concrete three-commit log. -/
theorem commit_audit_example_need_list_witness :
    extraCommits ["c3 third", "c2 second", "c1 first"] "c1" =
      [⟨"c3", "third"⟩, ⟨"c2", "second"⟩] ∧
    collectNeedCommits (fun sha => .ok (needContainsOutEx sha))
        [⟨"c3", "third"⟩, ⟨"c2", "second"⟩] =
      .ok [⟨"c3", "third"⟩] :=
  commit_audit_example_need_list "c3 third" "c2 second" "c1 first"
    needContainsOutEx (by decide) (by decide) (by decide) (by decide)

/-- Claim C6: the walk of an ignored entry yields nothing, and removing an
ignored entry from a listing leaves the walk result unchanged — the ignored
subtree contributes nothing, whatever the matcher would accept inside it. -/
theorem deepReadDir_skips_ignored_subtree :
    ∀ (dirPath : String) (ignoreFn matcherFn : String → Dirent → Bool)
      (pre post : List Dirent) (d : Dirent),
      ignoreFn dirPath d = true →
      deepReadDirEnt dirPath ignoreFn matcherFn d = [] ∧
      deepReadDir dirPath ignoreFn matcherFn (pre ++ d :: post) =
        deepReadDir dirPath ignoreFn matcherFn pre
          ++ deepReadDir dirPath ignoreFn matcherFn post := by
  intro p ign mat pre post d h
  have hent : deepReadDirEnt p ign mat d = [] := by
    unfold deepReadDirEnt
    rw [h]
    simp
  refine ⟨hent, ?_⟩
  induction pre with
  | nil => simp [deepReadDir, hent]
  | cons x rest ih =>
    have hx : deepReadDir p ign mat ((x :: rest) ++ d :: post) =
        deepReadDirEnt p ign mat x ++ deepReadDir p ign mat (rest ++ d :: post) :=
      rfl
    rw [hx, ih]
    exact (List.append_assoc _ _ _).symm

/-- Witness for claim C6: a directory named skip containing a matching
manifest contributes nothing to the walk of its parent listing. -/
theorem deepReadDir_skips_ignored_subtree_witness :
    deepReadDirEnt "." ignSkipEx matchAllEx
        (Dirent.dir "skip" [Dirent.file "Cargo.toml"]) = [] ∧
    deepReadDir "." ignSkipEx matchAllEx
        ([Dirent.file "a"]
          ++ Dirent.dir "skip" [Dirent.file "Cargo.toml"]
            :: [Dirent.file "b"]) =
      deepReadDir "." ignSkipEx matchAllEx [Dirent.file "a"]
        ++ deepReadDir "." ignSkipEx matchAllEx [Dirent.file "b"] :=
  deepReadDir_skips_ignored_subtree "." ignSkipEx matchAllEx
    [Dirent.file "a"] [Dirent.file "b"]
    (Dirent.dir "skip" [Dirent.file "Cargo.toml"]) rfl

/-- Claim C8: an entry without a truthy git field leaves the index unchanged,
and every name in any bucket of the built index comes from an entry whose git
field is present and nonempty — an entry lacking git never appears. -/
theorem no_git_field_never_indexed :
    (∀ (idx : DependencyIndex) (d : ManifestDep), d.git = none →
        processManifestDep idx d = idx) ∧
    (∀ (deps : List ManifestDep) (k : String) (ns : List String) (n : String),
      (k, ns) ∈ buildDependencyIndex deps → n ∈ ns →
      ∃ d, d ∈ deps ∧ d.name = n ∧ ∃ g, d.git = some g ∧ g ≠ "") := by
  constructor
  · intro idx d h
    simp [processManifestDep, h]
  · intro deps k ns n hmem hn
    rcases foldl_processManifestDep_mem deps [] k ns n hmem hn with h | h
    · obtain ⟨ns₀, hmem₀, _⟩ := h
      exact absurd hmem₀ (List.not_mem_nil _)
    · exact h

/-- Witness for claim C8: a git-less entry is skipped, and the only indexed
name of a one-entry scan comes from its git-bearing declaration. -/
theorem no_git_field_never_indexed_witness :
    processManifestDep [] ⟨"plain", none, none⟩ = [] ∧
    ∃ d, d ∈ [(⟨"withgit", some "u", none⟩ : ManifestDep)] ∧
      d.name = "withgit" ∧ ∃ g, d.git = some g ∧ g ≠ "" :=
  ⟨no_git_field_never_indexed.1 [] ⟨"plain", none, none⟩ rfl,
   no_git_field_never_indexed.2 [⟨"withgit", some "u", none⟩]
     ("u" ++ "#master") ["withgit"] "withgit" (by decide) (by decide)⟩

/-- Claim C9: the extra-commit list is truncated exclusively at the upstream
boundary sha — when the boundary never occurs in the log the entire log is
extra, and when it first occurs after a prefix the extras are exactly that
prefix, the boundary line itself discarded. -/
theorem extraCommits_truncation_spec :
    (∀ (lines : List String) (b : String),
        (∀ l ∈ lines, (parseCommitLine l).sha ≠ b) →
        extraCommits lines b = lines.map parseCommitLine) ∧
    (∀ (pre : List String) (lb : String) (post : List String) (b : String),
        (∀ l ∈ pre, (parseCommitLine l).sha ≠ b) →
        (parseCommitLine lb).sha = b →
        extraCommits (pre ++ lb :: post) b = pre.map parseCommitLine) := by
  constructor
  · intro lines b h
    induction lines with
    | nil => rfl
    | cons l rest ih =>
      simp only [extraCommits, List.map_cons]
      rw [if_neg (h l (List.mem_cons_self _ _)),
        ih (fun x hx => h x (List.mem_cons_of_mem _ hx))]
  · intro pre lb post b hpre hlb
    induction pre with
    | nil =>
      simp only [List.nil_append, List.map_nil, extraCommits]
      rw [if_pos hlb]
    | cons l rest ih =>
      simp only [List.cons_append, List.map_cons, extraCommits]
      rw [if_neg (hpre l (List.mem_cons_self _ _))]
      exact congrArg (parseCommitLine l :: ·)
        (ih (fun x hx => hpre x (List.mem_cons_of_mem _ hx)))

/-- Witness for claim C9: a log without the boundary is all extra, and a log
with the boundary in the middle yields exactly the lines before it. -/
theorem extraCommits_truncation_spec_witness :
    extraCommits ["a x", "b y"] "zzz" = [⟨"a", "x"⟩, ⟨"b", "y"⟩] ∧
    extraCommits (["a x"] ++ "zzz t" :: ["c w"]) "zzz" = [⟨"a", "x"⟩] :=
  ⟨extraCommits_truncation_spec.1 ["a x", "b y"] "zzz" (by decide),
   extraCommits_truncation_spec.2 ["a x"] "zzz t" ["c w"] "zzz"
     (by decide) (by decide)⟩

end Subsgrade
